import Mathlib

/-!
# Verification model of `src/subdomain-enum.js`

Shallow embedding of the passive+active subdomain enumeration tool.
Host names (JavaScript strings) are modeled as `List Char`; the JavaScript
string primitives used by the source are modeled character by character
(the inputs of interest are ASCII, where JS UTF-16 code-unit semantics and
Unicode code-point semantics coincide).

The external collaborators are modeled as explicit inputs:
* the certificate-transparency HTTP fetch as a `FetchOutcome` value
  (network error / timeout, non-ok status, JSON parse failure, or a parsed
  array of records);
* the DNS resolver `dns.resolve4` as a function
  `List Char → Option (List (List Char))` (`some addrs` = resolution
  success with the returned addresses, `none` = any resolver error,
  NXDOMAIN or timeout included).
-/

namespace SubdomainEnum

/-- JS `String.prototype.toLowerCase`, per character (ASCII range). -/
def toLowerStr (s : List Char) : List Char := s.map Char.toLower

/-- JS `String.prototype.trim`: drop whitespace from both ends. -/
def trimStr (s : List Char) : List Char :=
  ((s.dropWhile Char.isWhitespace).reverse.dropWhile Char.isWhitespace).reverse

/-- JS `name.replace('*.', '')`: `String.prototype.replace` with a string
pattern removes only the FIRST occurrence of the two-character substring
`*.` — wherever it occurs, not only as a leading marker. -/
def stripFirstStarDot : List Char → List Char
  | '*' :: '.' :: rest => rest
  | c :: rest => c :: stripFirstStarDot rest
  | [] => []

/-- JS `name.split('\n')` (line 48 of the source). -/
def splitNl (s : List Char) : List (List Char) := s.splitOn '\n'

/-- JS `n.endsWith(domain)` (line 50): plain suffix test. -/
def endsWithStr (s post : List Char) : Bool := List.isSuffixOf post s

/-- JS `n.includes('*')` (line 50). -/
def containsStar (s : List Char) : Bool := s.contains '*'

/-- Line 48 of the source: `n.replace('*.', '').trim().toLowerCase()`. -/
def processName (n : List Char) : List Char :=
  toLowerStr (trimStr (stripFirstStarDot n))

/-- Line 50 of the source: the filter `n.endsWith(domain) && !n.includes('*')`. -/
def keepName (domain n : List Char) : Bool :=
  endsWithStr n domain && !(containsStar n)

/-- One record of the crt.sh JSON array. `name_value = none` models a record
whose `name_value` field is missing or is not a string: in the source,
`name.split('\n')` then throws a `TypeError`. -/
structure CrtEntry where
  name_value : Option (List Char)
deriving DecidableEq

/-- The possible outcomes of the `fetch` + `response.json()` sequence in
`fetchCrtSh` (lines 37–42): a thrown network error or timeout, a non-ok
response status, a body that fails to parse as JSON, or a parsed array. -/
inductive FetchOutcome where
  | fetchError
  | badStatus
  | parseError
  | success (data : List CrtEntry)
deriving DecidableEq

/-- The names contributed by one record (lines 46–53): split `name_value` on
newlines, process each name, keep the survivors of the line-50 filter.
`error` models the `TypeError` thrown when `name_value` is absent. -/
def entryNames (domain : List Char) (e : CrtEntry) :
    Except Unit (List (List Char)) :=
  match e.name_value with
  | none => .error ()
  | some s => .ok (((splitNl s).map processName).filter (keepName domain))

/-- The whole `for (const entry of data)` loop (lines 45–54): names are
collected left to right; a thrown `TypeError` aborts the loop (and the
enclosing `try` then discards everything collected so far). -/
def collectNames (domain : List Char) :
    List CrtEntry → Except Unit (List (List Char))
  | [] => .ok []
  | e :: es =>
    match entryNames domain e with
    | .error u => .error u
    | .ok ns =>
      match collectNames domain es with
      | .error u => .error u
      | .ok rest => .ok (ns ++ rest)

/-- JS `Set` insertion: `[...new Set(l)]` keeps the first occurrence of each
element, in insertion order. `seen` is the set built so far. -/
def dedupGo (seen : List (List Char)) :
    List (List Char) → List (List Char)
  | [] => []
  | x :: xs => if x ∈ seen then dedupGo seen xs else x :: dedupGo (x :: seen) xs

/-- `[...new Set(l)]`. -/
def dedupKeepFirst (l : List (List Char)) : List (List Char) := dedupGo [] l

/-- `fetchCrtSh` (lines 35–59): on any thrown error, timeout, non-ok status
or parse failure, the `catch` (or the early `return`) yields `[]`; on a
parsed array, collect the filtered names of every record into a `Set` and
return its elements, unless a record's missing `name_value` throws — then
the `catch` returns `[]`, discarding every name already collected. -/
def fetchCrtSh (o : FetchOutcome) (domain : List Char) : List (List Char) :=
  match o with
  | .success data =>
    match collectNames domain data with
    | .ok names => dedupKeepFirst names
    | .error _ => []
  | _ => []

/-- Lines 22–33 of the source: the fixed bruteforce wordlist. -/
def COMMON_SUBDOMAINS : List (List Char) :=
  (["www", "mail", "ftp", "webmail", "smtp", "pop", "ns1", "ns2", "dns",
    "vpn", "remote", "api", "app", "dev", "staging", "test", "beta", "admin",
    "portal", "secure", "login", "sso", "auth", "gateway", "cdn", "static",
    "assets", "img", "images", "media", "blog", "shop", "store", "support",
    "help", "docs", "status", "git", "gitlab", "jenkins", "ci", "jira",
    "confluence", "wiki", "forum", "mx", "mx1", "mx2", "ns", "dns1", "dns2",
    "m", "mobile", "internal", "intranet", "extranet", "db", "database",
    "mysql", "postgres", "mongo", "redis", "elastic", "kibana", "grafana",
    "monitor", "nagios", "prometheus", "logs", "splunk", "s3", "storage",
    "backup", "old", "new", "legacy", "demo", "sandbox", "uat", "qa",
    "prod"] : List String).map String.data

/-- Line 102: `COMMON_SUBDOMAINS.map(s => `${s}.${targetDomain}`)`. -/
def bruteCandidates (domain : List Char) : List (List Char) :=
  COMMON_SUBDOMAINS.map (fun s => s ++ '.' :: domain)

/-- JS default `Array.prototype.sort()` comparison on strings: code-unit
order, compared here via the character code points (identical on ASCII). -/
def charLt (a b : Char) : Bool := a.val.toNat < b.val.toNat

/-- Lexicographic `≤` on the character lists, as JS `sort()` compares. -/
def charListLe : List Char → List Char → Bool
  | [], _ => true
  | _ :: _, [] => false
  | a :: as, b :: bs =>
    if charLt a b then true
    else if charLt b a then false
    else charListLe as bs

/-- Insert into a sorted list (helper for the sort model). -/
def insertSorted (x : List Char) : List (List Char) → List (List Char)
  | [] => [x]
  | y :: ys => if charListLe x y then x :: y :: ys else y :: insertSorted x ys

/-- `Array.prototype.sort()` with the default comparator, modeled as
insertion sort: on the duplicate-free input built at line 106 the sorted
result is unique, so any correct sort agrees with this one. -/
def sortCandidates : List (List Char) → List (List Char)
  | [] => []
  | x :: xs => insertSorted x (sortCandidates xs)

/-- Lines 105–110: `[...new Set([targetDomain, ...crt, ...brute])].sort()`. -/
def aggregate (domain : List Char) (crt brute : List (List Char)) :
    List (List Char) :=
  sortCandidates (dedupKeepFirst (domain :: (crt ++ brute)))

/-- The per-candidate record produced by `checkSubdomain` (lines 61–68). -/
structure Outcome where
  subdomain : List Char
  addresses : List (List Char)
  alive : Bool
deriving DecidableEq

/-- `checkSubdomain` (lines 61–68): a successful `resolve4` gives
`alive: true` with the returned addresses; any thrown resolver error gives
`alive: false` with no addresses. -/
def checkSubdomain (res : List Char → Option (List (List Char)))
    (s : List Char) : Outcome :=
  match res s with
  | some addresses => { subdomain := s, addresses := addresses, alive := true }
  | none => { subdomain := s, addresses := [], alive := false }

/-- The batches of the resolution loop (lines 121–122): successive slices of
`b + 1` candidates (the `+ 1` keeps the batch size positive; the source
fixes the size to 20, i.e. `b = 19`). -/
def chunksSucc (b : Nat) : List (List Char) → List (List (List Char))
  | [] => []
  | x :: xs => ((x :: xs).take (b + 1)) :: chunksSucc b ((x :: xs).drop (b + 1))
termination_by l => l.length
decreasing_by simp; omega

/-- The full sequence of per-candidate results in the order the engine reads
them: `Promise.all` (line 123) returns each batch's results in the batch's
input order, and batches are awaited strictly one after the other. -/
def runBatches (res : List Char → Option (List (List Char))) (b : Nat)
    (cands : List (List Char)) : List Outcome :=
  ((chunksSucc b cands).map (fun batch => batch.map (checkSubdomain res))).flatten

/-- The entry pushed onto `result.alive` at lines 127–130. -/
structure AliveEntry where
  subdomain : List Char
  addresses : List (List Char)
deriving DecidableEq

/-- Lines 121–137: after each batch completes, the alive results of that
batch are appended in candidate order. -/
def aliveEntries (res : List Char → Option (List (List Char))) (b : Nat)
    (cands : List (List Char)) : List AliveEntry :=
  ((chunksSucc b cands).map (fun batch =>
    ((batch.map (checkSubdomain res)).filter (fun r => r.alive)).map
      (fun r => AliveEntry.mk r.subdomain r.addresses))).flatten

/-- `result.summary` (lines 77–80, 113, 139). -/
structure Summary where
  total_found : Nat
  alive_count : Nat
deriving DecidableEq

/-- The `result` object of `enumerateSubdomains` (lines 71–81), minus the
wall-clock `timestamp` field. The `sources` map has exactly the two keys
`'crt.sh'` and `'bruteforce'`, modeled as two fields. -/
structure Report where
  domain : List Char
  sources_crtsh : Nat
  sources_bruteforce : Nat
  subdomains : List (List Char)
  alive : List AliveEntry
  summary : Summary
deriving DecidableEq

/-- `enumerateSubdomains` (lines 70–141). The certificate-transparency
fetch outcome `o` and the resolver `res` are the two external
collaborators; `b` is the batch-size parameter of the resolution loop
(the source hard-codes `batchSize = 20`, i.e. `b = 19`; the bound is kept
as a parameter to state the spec's batch-size properties). -/
def enumerateSubdomains (o : FetchOutcome)
    (res : List Char → Option (List (List Char)))
    (targetDomain : List Char) (b : Nat) : Report :=
  let crtSubdomains := fetchCrtSh o targetDomain
  let bruteSubdomains := bruteCandidates targetDomain
  let allSubdomains := aggregate targetDomain crtSubdomains bruteSubdomains
  { domain := targetDomain
    sources_crtsh := crtSubdomains.length
    sources_bruteforce := bruteSubdomains.length
    subdomains := allSubdomains
    alive := aliveEntries res b allSubdomains
    summary :=
      { total_found := allSubdomains.length
        alive_count := (aliveEntries res b allSubdomains).length } }

/-! ## Helper lemmas -/

theorem mem_dedupGo (x : List Char) :
    ∀ (l seen : List (List Char)), x ∈ dedupGo seen l ↔ (x ∈ l ∧ x ∉ seen) := by
  intro l
  induction l with
  | nil => intro seen; simp [dedupGo]
  | cons y ys ih =>
    intro seen
    by_cases hy : y ∈ seen
    · rw [dedupGo, if_pos hy, ih]
      constructor
      · rintro ⟨h1, h2⟩; exact ⟨List.mem_cons_of_mem _ h1, h2⟩
      · rintro ⟨h1, h2⟩
        rcases List.mem_cons.mp h1 with rfl | h1
        · exact absurd hy h2
        · exact ⟨h1, h2⟩
    · rw [dedupGo, if_neg hy]
      constructor
      · intro h
        rcases List.mem_cons.mp h with rfl | h
        · exact ⟨List.mem_cons_self _ _, hy⟩
        · rcases (ih _).mp h with ⟨h1, h2⟩
          refine ⟨List.mem_cons_of_mem _ h1, fun hx => h2 (List.mem_cons_of_mem _ hx)⟩
      · rintro ⟨h1, h2⟩
        rcases List.mem_cons.mp h1 with rfl | h1
        · exact List.mem_cons_self _ _
        · by_cases hxy : x = y
          · subst hxy; exact List.mem_cons_self _ _
          · exact List.mem_cons_of_mem _ ((ih _).mpr
              ⟨h1, fun hx => (List.mem_cons.mp hx).elim hxy h2⟩)

theorem nodup_dedupGo :
    ∀ (l seen : List (List Char)), (dedupGo seen l).Nodup := by
  intro l
  induction l with
  | nil => intro seen; simp [dedupGo]
  | cons y ys ih =>
    intro seen
    by_cases hy : y ∈ seen
    · rw [dedupGo, if_pos hy]; exact ih seen
    · rw [dedupGo, if_neg hy]
      refine List.Nodup.cons ?_ (ih _)
      intro hmem
      exact ((mem_dedupGo y ys (y :: seen)).mp hmem).2 (List.mem_cons_self _ _)

theorem mem_dedupKeepFirst (x : List Char) (l : List (List Char)) :
    x ∈ dedupKeepFirst l ↔ x ∈ l := by
  rw [dedupKeepFirst, mem_dedupGo]
  simp

theorem nodup_dedupKeepFirst (l : List (List Char)) :
    (dedupKeepFirst l).Nodup := nodup_dedupGo l []

/-- Splitting a list into batches and concatenating a per-batch image under
any `++`-homomorphism gives the image of the whole list: batching is
invisible to order-respecting processing. -/
theorem flatten_map_chunksSucc {β : Type} (f : List (List Char) → List β)
    (hf : ∀ l₁ l₂, f (l₁ ++ l₂) = f l₁ ++ f l₂) (b : Nat) :
    ∀ l, ((chunksSucc b l).map f).flatten = f l
  | [] => by
    have h := hf [] []
    simp only [List.append_nil] at h
    have hlen := congrArg List.length h
    simp only [List.length_append] at hlen
    have h0 : f [] = [] := List.eq_nil_of_length_eq_zero (by omega)
    simp [chunksSucc, h0]
  | x :: xs => by
    rw [chunksSucc]
    simp only [List.map_cons, List.flatten_cons]
    rw [flatten_map_chunksSucc f hf b ((x :: xs).drop (b + 1)), ← hf,
      List.take_append_drop]
termination_by l => l.length
decreasing_by simp; omega

theorem runBatches_eq (res : List Char → Option (List (List Char))) (b : Nat)
    (cands : List (List Char)) :
    runBatches res b cands = cands.map (checkSubdomain res) :=
  flatten_map_chunksSucc _ (fun l₁ l₂ => List.map_append _ l₁ l₂) b cands

theorem aliveEntries_eq (res : List Char → Option (List (List Char))) (b : Nat)
    (cands : List (List Char)) :
    aliveEntries res b cands =
      ((cands.map (checkSubdomain res)).filter (fun r => r.alive)).map
        (fun r => AliveEntry.mk r.subdomain r.addresses) :=
  flatten_map_chunksSucc _
    (fun l₁ l₂ => by rw [List.map_append, List.filter_append, List.map_append])
    b cands

/-- The alive list is the in-order filter of the candidate list under the
resolver assignment. -/
theorem aliveEntries_filter (res : List Char → Option (List (List Char)))
    (b : Nat) (cands : List (List Char)) :
    aliveEntries res b cands =
      (cands.filter (fun c => (res c).isSome)).map
        (fun c => AliveEntry.mk c ((res c).getD [])) := by
  rw [aliveEntries_eq]
  induction cands with
  | nil => rfl
  | cons c cs ih =>
    cases h : res c with
    | some addrs =>
      simp only [List.map_cons, List.filter_cons, checkSubdomain, h]
      simp [ih, h]
    | none =>
      simp only [List.map_cons, List.filter_cons, checkSubdomain, h, ih]
      exact ih

theorem charListLe_cons_iff {a b : Char} {as bs : List Char} :
    charListLe (a :: as) (b :: bs) = true ↔
      (a.val.toNat < b.val.toNat ∨
        (a.val.toNat = b.val.toNat ∧ charListLe as bs = true)) := by
  rcases Nat.lt_trichotomy a.val.toNat b.val.toNat with h | h | h
  · simp [charListLe, charLt, h]
  · simp [charListLe, charLt, h, Nat.lt_irrefl]
  · simp [charListLe, charLt, h, Nat.lt_asymm h, Nat.ne_of_gt h]

theorem charListLe_total :
    ∀ a b : List Char, charListLe a b = true ∨ charListLe b a = true
  | [], _ => .inl rfl
  | _ :: _, [] => .inr rfl
  | a :: as, b :: bs => by
    rcases Nat.lt_trichotomy a.val.toNat b.val.toNat with h | h | h
    · exact .inl (charListLe_cons_iff.mpr (.inl h))
    · rcases charListLe_total as bs with h' | h'
      · exact .inl (charListLe_cons_iff.mpr (.inr ⟨h, h'⟩))
      · exact .inr (charListLe_cons_iff.mpr (.inr ⟨h.symm, h'⟩))
    · exact .inr (charListLe_cons_iff.mpr (.inl h))

theorem charListLe_trans :
    ∀ a b c : List Char, charListLe a b = true → charListLe b c = true →
      charListLe a c = true
  | [], _, _, _, _ => rfl
  | _ :: _, [], _, h, _ => by cases h
  | _ :: _, _ :: _, [], _, h => by cases h
  | a :: as, b :: bs, c :: cs, h1, h2 => by
    rcases charListLe_cons_iff.mp h1 with h1 | ⟨h1, h1'⟩ <;>
      rcases charListLe_cons_iff.mp h2 with h2 | ⟨h2, h2'⟩
    · exact charListLe_cons_iff.mpr (.inl (h1.trans h2))
    · exact charListLe_cons_iff.mpr (.inl (by omega))
    · exact charListLe_cons_iff.mpr (.inl (by omega))
    · exact charListLe_cons_iff.mpr
        (.inr ⟨h1.trans h2, charListLe_trans as bs cs h1' h2'⟩)

theorem perm_insertSorted (x : List Char) :
    ∀ l, List.Perm (insertSorted x l) (x :: l)
  | [] => List.Perm.refl _
  | y :: ys => by
    rw [insertSorted]
    split
    · exact List.Perm.refl _
    · exact ((perm_insertSorted x ys).cons y).trans (List.Perm.swap x y ys)

theorem perm_sortCandidates : ∀ l, List.Perm (sortCandidates l) l
  | [] => List.Perm.refl _
  | x :: xs =>
    (perm_insertSorted x (sortCandidates xs)).trans
      ((perm_sortCandidates xs).cons x)

theorem sorted_insertSorted (x : List Char) :
    ∀ l, List.Sorted (fun a b => charListLe a b = true) l →
      List.Sorted (fun a b => charListLe a b = true) (insertSorted x l)
  | [], _ => List.sorted_singleton x
  | y :: ys, h => by
    rw [insertSorted]
    rcases List.sorted_cons.mp h with ⟨hy, hys⟩
    split
    · rename_i hxy
      refine List.sorted_cons.mpr ⟨?_, h⟩
      intro z hz
      rcases List.mem_cons.mp hz with rfl | hz
      · exact hxy
      · exact charListLe_trans _ _ _ hxy (hy z hz)
    · rename_i hxy
      have hyx : charListLe y x = true := by
        rcases charListLe_total x y with h' | h'
        · exact absurd h' hxy
        · exact h'
      refine List.sorted_cons.mpr ⟨?_, sorted_insertSorted x ys hys⟩
      intro z hz
      rcases List.mem_cons.mp ((perm_insertSorted x ys).mem_iff.mp hz)
        with rfl | hz
      · exact hyx
      · exact hy z hz

theorem sorted_sortCandidates :
    ∀ l, List.Sorted (fun a b => charListLe a b = true) (sortCandidates l)
  | [] => List.sorted_nil
  | x :: xs => sorted_insertSorted x _ (sorted_sortCandidates xs)

theorem mem_aggregate (d : List Char) (crt brute : List (List Char))
    (n : List Char) :
    n ∈ aggregate d crt brute ↔ (n = d ∨ n ∈ crt ∨ n ∈ brute) := by
  rw [aggregate, (perm_sortCandidates _).mem_iff, mem_dedupKeepFirst]
  simp

theorem nodup_aggregate (d : List Char) (crt brute : List (List Char)) :
    (aggregate d crt brute).Nodup :=
  ((perm_sortCandidates _).nodup_iff).mpr (nodup_dedupKeepFirst _)

theorem sorted_aggregate (d : List Char) (crt brute : List (List Char)) :
    List.Sorted (fun a b => charListLe a b = true) (aggregate d crt brute) :=
  sorted_sortCandidates _

/-- Every name returned by the certificate-transparency source passed the
line-50 filter. -/
theorem keepName_of_mem_collectNames (d : List Char) :
    ∀ (data : List CrtEntry) (names : List (List Char)),
      collectNames d data = .ok names →
        ∀ n ∈ names, keepName d n = true := by
  intro data
  induction data with
  | nil =>
    intro names h n hn
    rw [collectNames] at h
    cases h
    cases hn
  | cons e es ih =>
    intro names h n hn
    rw [collectNames] at h
    cases he : entryNames d e with
    | error u => rw [he] at h; cases h
    | ok ns =>
      rw [he] at h
      cases hr : collectNames d es with
      | error u => rw [hr] at h; cases h
      | ok rest =>
        rw [hr] at h
        cases h
        rcases List.mem_append.mp hn with hn | hn
        · rw [entryNames] at he
          cases hv : e.name_value with
          | none => rw [hv] at he; cases he
          | some s =>
            rw [hv] at he
            cases he
            exact (List.mem_filter.mp hn).2
        · exact ih rest hr n hn

theorem keepName_of_mem_fetchCrtSh (o : FetchOutcome) (d n : List Char)
    (h : n ∈ fetchCrtSh o d) : keepName d n = true := by
  cases o with
  | success data =>
    rw [fetchCrtSh] at h
    cases hc : collectNames d data with
    | error u => rw [hc] at h; cases h
    | ok names =>
      rw [hc] at h
      exact keepName_of_mem_collectNames d data names hc n
        ((mem_dedupKeepFirst n names).mp h)
  | fetchError => cases h
  | badStatus => cases h
  | parseError => cases h

/-- A record with a missing (or non-string) `name_value` field makes the
whole collection loop throw. -/
theorem collectNames_error_of_bad_entry (d : List Char) :
    ∀ (data : List CrtEntry) (e : CrtEntry), e ∈ data →
      e.name_value = none → collectNames d data = .error () := by
  intro data
  induction data with
  | nil => intro e he; cases he
  | cons e' es ih =>
    intro e he hv
    rcases List.mem_cons.mp he with rfl | he
    · rw [collectNames, entryNames, hv]
    · rw [collectNames]
      cases hn : entryNames d e' with
      | error u => rfl
      | ok ns => rw [ih e he hv]

-- sanity checks of the model on the spec's own example scenario
example :
    fetchCrtSh (.success [⟨some "www.example.com".data⟩,
      ⟨some "*.api.example.com".data⟩, ⟨some "EVIL-example.com".data⟩])
      "example.com".data =
    ["www.example.com".data, "api.example.com".data,
     "evil-example.com".data] := by decide

example : processName "*.api.example.com".data = "api.example.com".data := by
  decide

example : aggregate "example.com".data [] [] = ["example.com".data] := by
  decide

/-- Batching does not change the alive list: helper for the batch-size
invariance claim. -/
theorem aliveEntries_batchSize_inv
    (res : List Char → Option (List (List Char))) (b₁ b₂ : Nat)
    (cands : List (List Char)) :
    aliveEntries res b₁ cands = aliveEntries res b₂ cands := by
  rw [aliveEntries_eq, aliveEntries_eq]

/-! ## Claims -/

/-- C1 counterexample: for domain `example.com`, the certificate name
`EVIL-example.com` (the spec's own scenario input) IS classified as
belonging — it is returned by the certificate-transparency source even
though it neither equals the domain nor ends with `.example.com`: line 50
of the source tests `n.endsWith(domain)` with no `.`-boundary. -/
theorem c1_counterexample :
    fetchCrtSh (.success [⟨some "EVIL-example.com".data⟩]) "example.com".data
        = ["evil-example.com".data] ∧
      "evil-example.com".data ≠ "example.com".data ∧
      endsWithStr "evil-example.com".data ('.' :: "example.com".data)
        = false := by
  decide

/-- C1 (amended): a certificate-transparency name is kept only if it ends
with the domain as a plain string suffix — the `.`-boundary is NOT
required. `sub.example.com` is classified as belonging to `example.com`,
but so is `evil-example.com`. -/
theorem c1_suffix_plain :
    (∀ (o : FetchOutcome) (d n : List Char),
        n ∈ fetchCrtSh o d → endsWithStr n d = true) ∧
      fetchCrtSh (.success [⟨some "sub.example.com".data⟩])
        "example.com".data = ["sub.example.com".data] ∧
      fetchCrtSh (.success [⟨some "evil-example.com".data⟩])
        "example.com".data = ["evil-example.com".data] := by
  refine ⟨?_, by decide, by decide⟩
  intro o d n h
  have hk := keepName_of_mem_fetchCrtSh o d n h
  rw [keepName, Bool.and_eq_true] at hk
  exact hk.1

/-- Witness for C1 (amended) at a concrete input. -/
theorem c1_suffix_plain_witness :
    endsWithStr "sub.example.com".data "example.com".data = true :=
  c1_suffix_plain.1 (.success [⟨some "sub.example.com".data⟩])
    "example.com".data "sub.example.com".data (by decide)

/-- C2: the aggregation step outputs exactly the union of the
certificate-transparency names, the bruteforce names and the domain
itself, with exact duplicates collapsed, sorted lexicographically
ascending; the domain is always an element, whatever the sources
contribute. -/
theorem c2_aggregation (o : FetchOutcome)
    (res : List Char → Option (List (List Char))) (d : List Char) (b : Nat) :
    (∀ n, n ∈ (enumerateSubdomains o res d b).subdomains ↔
        (n = d ∨ n ∈ fetchCrtSh o d ∨ n ∈ bruteCandidates d)) ∧
      (enumerateSubdomains o res d b).subdomains.Nodup ∧
      List.Sorted (fun a b => charListLe a b = true)
        (enumerateSubdomains o res d b).subdomains ∧
      d ∈ (enumerateSubdomains o res d b).subdomains :=
  ⟨fun n => mem_aggregate d (fetchCrtSh o d) (bruteCandidates d) n,
    nodup_aggregate d (fetchCrtSh o d) (bruteCandidates d),
    sorted_aggregate d (fetchCrtSh o d) (bruteCandidates d),
    (mem_aggregate d (fetchCrtSh o d) (bruteCandidates d) d).mpr (.inl rfl)⟩

/-- Witness for C2 at a concrete input: the domain itself is in the
candidate set even when both sources contribute nothing. -/
theorem c2_aggregation_witness :
    "example.com".data ∈ (enumerateSubdomains .fetchError (fun _ => none)
      "example.com".data 19).subdomains :=
  (c2_aggregation .fetchError (fun _ => none) "example.com".data 19).2.2.2

/-- C3: for every candidate list and every resolver assignment, the alive
list equals the alive candidates filtered from the candidate sequence in
order — batch completion order is not observable; in particular this holds
for the sorted candidate set of a full enumeration. -/
theorem c3_alive_in_candidate_order
    (res : List Char → Option (List (List Char))) (b : Nat)
    (cands : List (List Char)) (o : FetchOutcome) (d : List Char) :
    aliveEntries res b cands =
        (cands.filter (fun c => (res c).isSome)).map
          (fun c => AliveEntry.mk c ((res c).getD [])) ∧
      (enumerateSubdomains o res d b).alive =
        ((enumerateSubdomains o res d b).subdomains.filter
          (fun c => (res c).isSome)).map
          (fun c => AliveEntry.mk c ((res c).getD [])) :=
  ⟨aliveEntries_filter res b cands, aliveEntries_filter res b _⟩

/-- C4: for a fixed candidate set and resolver assignment, the engine's
output — and the whole Report — is identical for every batch size (the
model's chunk size is `b + 1`, so `b = 0, 4, 19` are the spec's
`B = 1, 5, 20`). -/
theorem c4_batch_size_invariance (o : FetchOutcome)
    (res : List Char → Option (List (List Char))) (d : List Char)
    (b₁ b₂ : Nat) (cands : List (List Char)) :
    aliveEntries res b₁ cands = aliveEntries res b₂ cands ∧
      enumerateSubdomains o res d b₁ = enumerateSubdomains o res d b₂ := by
  refine ⟨aliveEntries_batchSize_inv res b₁ b₂ cands, ?_⟩
  simp only [enumerateSubdomains, aliveEntries_batchSize_inv res b₁ b₂]

/-- C5 counterexample: `sub.*.example.com` still contains a wildcard after
stripping a LEADING `*.` marker, so per the claim it must be discarded;
the source instead removes the first `*.` occurrence anywhere
(`String.prototype.replace`), producing `sub.example.com`, which is kept. -/
theorem c5_counterexample :
    fetchCrtSh (.success [⟨some "sub.*.example.com".data⟩])
      "example.com".data = ["sub.example.com".data] := by
  decide

/-- C5 (amended): the FIRST occurrence of the substring `*.` — wherever it
occurs, not only as a leading marker — is removed, and the name trimmed
and lower-cased; any name that still contains `*` after that removal is
discarded and never appears in the result. `*.api.example.com` yields
`api.example.com` (`*.API.example.com` likewise, lower-cased), a name of
wildcard depth two such as `*.*.example.com` is discarded, but
`sub.*.example.com` becomes `sub.example.com`. -/
theorem c5_wildcard_first_occurrence :
    (∀ (o : FetchOutcome) (d n : List Char),
        n ∈ fetchCrtSh o d → containsStar n = false) ∧
      processName "*.api.example.com".data = "api.example.com".data ∧
      processName "*.API.example.com".data = "api.example.com".data ∧
      fetchCrtSh (.success [⟨some "*.*.example.com".data⟩])
        "example.com".data = [] ∧
      processName "sub.*.example.com".data = "sub.example.com".data := by
  refine ⟨?_, by decide, by decide, by decide, by decide⟩
  intro o d n h
  have hk := keepName_of_mem_fetchCrtSh o d n h
  rw [keepName, Bool.and_eq_true] at hk
  have h2 := hk.2
  simp only [Bool.not_eq_true'] at h2
  exact h2

/-- Witness for C5 (amended) at a concrete input. -/
theorem c5_wildcard_first_occurrence_witness :
    containsStar "api.example.com".data = false :=
  c5_wildcard_first_occurrence.1
    (.success [⟨some "*.api.example.com".data⟩]) "example.com".data
    "api.example.com".data (by decide)

/-- C6: a network error or timeout (`fetchError`), a non-success status
(`badStatus`) or an unparseable body (`parseError`) each make the
certificate-transparency source yield the empty set, and the enumeration
still produces exactly the full Report it would produce from an empty
parsed response — the failure never propagates to the caller. -/
theorem c6_soft_failure (d : List Char)
    (res : List Char → Option (List (List Char))) (b : Nat) :
    (fetchCrtSh .fetchError d = [] ∧
        enumerateSubdomains .fetchError res d b =
          enumerateSubdomains (.success []) res d b) ∧
      (fetchCrtSh .badStatus d = [] ∧
        enumerateSubdomains .badStatus res d b =
          enumerateSubdomains (.success []) res d b) ∧
      (fetchCrtSh .parseError d = [] ∧
        enumerateSubdomains .parseError res d b =
          enumerateSubdomains (.success []) res d b) :=
  ⟨⟨rfl, rfl⟩, ⟨rfl, rfl⟩, ⟨rfl, rfl⟩⟩

/-- C7: regardless of batching, every candidate receives exactly the
outcome determined by its own resolution result — alive with the returned
addresses on success, dead with no addresses on any failure — and the
alive list is the per-item filter of those outcomes: one candidate's
failure never aborts its batch or the run, nor affects any other
candidate's classification. -/
theorem c7_fault_isolation (res : List Char → Option (List (List Char)))
    (b : Nat) (cands : List (List Char)) :
    runBatches res b cands = cands.map (fun c =>
        match res c with
        | some addrs => Outcome.mk c addrs true
        | none => Outcome.mk c [] false) ∧
      aliveEntries res b cands =
        ((runBatches res b cands).filter (fun r => r.alive)).map
          (fun r => AliveEntry.mk r.subdomain r.addresses) := by
  constructor
  · rw [runBatches_eq]
    rfl
  · rw [aliveEntries_eq, runBatches_eq]

/-- C8 counterexample: for the mixed-case domain `Example.com` the CT name
`www.example.com` is NOT classified as belonging (the lower-cased name is
compared against the domain verbatim), while with the lower-cased domain
it is, and the resulting candidate sets differ — enumeration with D and
with toLower(D) disagree. -/
theorem c8_counterexample :
    toLowerStr "Example.com".data = "example.com".data ∧
      fetchCrtSh (.success [⟨some "www.example.com".data⟩])
        "Example.com".data = [] ∧
      fetchCrtSh (.success [⟨some "www.example.com".data⟩])
        "example.com".data = ["www.example.com".data] ∧
      "www.example.com".data ∈ (enumerateSubdomains
        (.success [⟨some "www.example.com".data⟩]) (fun _ => none)
        "example.com".data 19).subdomains ∧
      "www.example.com".data ∉ (enumerateSubdomains
        (.success [⟨some "www.example.com".data⟩]) (fun _ => none)
        "Example.com".data 19).subdomains := by
  refine ⟨by decide, by decide, by decide, ?_, ?_⟩
  · exact (mem_aggregate _ _ _ _).mpr (.inr (.inl (by decide)))
  · intro hmem
    rcases (mem_aggregate _ _ _ _).mp hmem with h | h | h
    · exact absurd h (by decide)
    · exact absurd h (by decide)
    · exact absurd h (by decide)

/-- C8 (amended): the root domain is used verbatim (case-sensitively) as
the suffix key, while the certificate names are lower-cased; enumeration
with D and with toLower(D) therefore coincides when D is already all
lower-case, and can differ for mixed-case D. -/
theorem c8_domain_verbatim (o : FetchOutcome)
    (res : List Char → Option (List (List Char))) (b : Nat) (d : List Char)
    (h : toLowerStr d = d) :
    enumerateSubdomains o res d b =
      enumerateSubdomains o res (toLowerStr d) b := by
  rw [h]

/-- Witness for C8 (amended) at a concrete input. -/
theorem c8_domain_verbatim_witness :
    enumerateSubdomains .fetchError (fun _ => none) "example.com".data 19 =
      enumerateSubdomains .fetchError (fun _ => none)
        (toLowerStr "example.com".data) 19 :=
  c8_domain_verbatim .fetchError (fun _ => none) 19 "example.com".data
    (by decide)

/-- C9: in every completed Report, `total_found` is the length of the
deduplicated sorted candidate list and `alive_count` is the length of the
alive outcome list; the assembly is a pure total function. -/
theorem c9_summary_counts (o : FetchOutcome)
    (res : List Char → Option (List (List Char))) (d : List Char) (b : Nat) :
    (enumerateSubdomains o res d b).summary.total_found =
        (enumerateSubdomains o res d b).subdomains.length ∧
      (enumerateSubdomains o res d b).summary.alive_count =
        (enumerateSubdomains o res d b).alive.length :=
  ⟨rfl, rfl⟩

/-- C10: certificate-transparency parsing is all-or-nothing: if any record
of the parsed array has a missing or non-string `name_value`, the source
returns the empty set — names collected from earlier well-formed records
are discarded. -/
theorem c10_all_or_nothing (d : List Char) (data : List CrtEntry)
    (e : CrtEntry) (he : e ∈ data) (hv : e.name_value = none) :
    fetchCrtSh (.success data) d = [] := by
  rw [fetchCrtSh, collectNames_error_of_bad_entry d data e he hv]

/-- Witness for C10: the first record is well-formed and would contribute
`www.example.com`, but the second record's missing `name_value` empties
the whole result. -/
theorem c10_all_or_nothing_witness :
    fetchCrtSh (.success [⟨some "www.example.com".data⟩, ⟨none⟩])
      "example.com".data = [] :=
  c10_all_or_nothing "example.com".data _ ⟨none⟩ (by decide) rfl

end SubdomainEnum
